import Mathlib

/-!
Shallow embedding of `src/pyslicer.py` (function `slicer`, lines 12-81), the
coordinate-wise MCMC slice sampler, together with theorems settling the
specification claims.

Modelling conventions:
* numpy float vectors are lists of rationals (`Vec`); scalar floats that a
  density evaluation may produce are `Option ℚ` (`F`), where `none` models
  IEEE NaN: numpy propagates NaN through arithmetic and every ordered
  comparison involving NaN evaluates to false, which `fLt` reproduces.
* the process-wide uniform source `numpy.random.rand` is an injected stream
  `rands : ℕ → ℚ` read at a cursor `k` that every procedure threads through.
* `np.log`, applied only to uniform draws on line 47, is kept as an abstract
  parameter `flog : ℚ → ℚ` because its values are irrational and no claim
  depends on them; the slice height is `y0 + flog u`, faithful to line 47.
* the shrinkage loop (lines 64-73) is `while True` with no iteration cap; it
  is embedded with an explicit fuel argument, `none` meaning the loop has not
  exited within the given fuel.  Likewise the outer `while i < N` loop gets a
  sweep fuel, exhausted only when `dim = 0` (where the source loops forever).
* the numpy errors raised by `xs[0,:] = x0` when `N = 0` or when the shape of
  `x0` does not match `dim` are modelled by returning `none`.
-/

namespace PySlicer

/-- Points and numpy float vectors, modelled as lists of rationals. -/
abbrev Vec := List ℚ

/-- Scalar float values a density may produce; `none` models IEEE NaN. -/
abbrev F := Option ℚ

/-- Python float comparison `a < b`: false whenever either side is NaN. -/
def fLt : F → F → Bool
  | some a, some b => decide (a < b)
  | _, _ => false

/-- numpy float addition, propagating NaN. -/
def fAdd : F → F → F
  | some a, some b => some (a + b)
  | _, _ => none

/-- numpy elementwise vector subtraction. -/
def vsub (a b : Vec) : Vec := List.zipWith (fun x y => x - y) a b

/-- numpy elementwise vector addition. -/
def vadd (a b : Vec) : Vec := List.zipWith (fun x y => x + y) a b

/-- numpy scalar-times-vector broadcast. -/
def smul (c : ℚ) (v : Vec) : Vec := v.map (fun x => c * x)

/-- Component `j` of a vector (`0` when out of range, as a total accessor). -/
def vget (v : Vec) (j : ℕ) : ℚ := v.getD j 0

/-- Lines 44-45: `way = 0.0 * way; way[d] = 1.0` — the one-hot direction. -/
def oneHot (dim d : ℕ) : Vec := (List.range dim).map (fun j => if j = d then 1 else 0)

/-- Line 53: `J = np.floor(m*V)`. -/
def budgetJ (m : ℤ) (V : ℚ) : ℤ := ⌊(m : ℚ) * V⌋

/-- Line 54: `K = (m - 1) - J`. -/
def budgetK (m : ℤ) (V : ℚ) : ℤ := m - 1 - budgetJ m V

/-- Lines 50-51: the initial width-`w` bracket straddling `x0` along `way`:
`L = x0 - (w * way * U)` and `R = L + w * way`. -/
def initBracket (x0 way : Vec) (w U : ℚ) : Vec × Vec :=
  let L := vsub x0 (smul U (smul w way))
  (L, vadd L (smul w way))

section

variable {α : Type} (g : Vec → α → F) (xargs : α) (flog : ℚ → ℚ) (rands : ℕ → ℚ)

/-- Lines 55-57: `while J > 0 and y < g(L,xargs): L = L - w*way; J = J - 1`.
The first argument is the remaining budget `J`, so the loop runs at most `J`
times and stops as soon as the density test fails. -/
def stepLeft (y : F) (w : ℚ) (way : Vec) : ℕ → Vec → Vec
  | 0, L => L
  | n + 1, L =>
    if fLt y (g L xargs) then stepLeft y w way n (vsub L (smul w way)) else L

/-- Lines 58-60: `while K > 0 and y < g(R,xargs): R = R + w*way; K = K - 1`. -/
def stepRight (y : F) (w : ℚ) (way : Vec) : ℕ → Vec → Vec
  | 0, R => R
  | n + 1, R =>
    if fLt y (g R xargs) then stepRight y w way n (vadd R (smul w way)) else R

/-- Result of the step-out phase: the expanded bracket, the slice height `y`
of line 47, and the pre-move log-density `y0` of line 46. -/
structure StepOut where
  L : Vec
  R : Vec
  y : F
  y0 : F
deriving Repr, DecidableEq

/-- Lines 46-60: slice height then bracket construction and expansion.
`k` is the cursor into the uniform stream (line 47 consumes draw `k`,
line 49 draw `k+1`, line 52 draw `k+2`); returns the advanced cursor. -/
def stepOut (x0 way : Vec) (w : ℚ) (m : ℤ) (k : ℕ) : StepOut × ℕ :=
  let y0 := g x0 xargs
  let y := fAdd y0 (some (flog (rands k)))
  let LR := initBracket x0 way w (rands (k + 1))
  let J := budgetJ m (rands (k + 2))
  let K := budgetK m (rands (k + 2))
  (⟨stepLeft g xargs y w way J.toNat LR.1, stepRight g xargs y w way K.toNat LR.2, y, y0⟩,
    k + 3)

/-- Lines 63-73: the shrinkage loop (`while True`).  The fuel argument models
the absence of an iteration cap: `none` means the loop has not exited within
the given fuel.  On success, returns the accepted point and the advanced
cursor. -/
def shrink (y : F) (x0 : Vec) (d : ℕ) : ℕ → ℕ → Vec → Vec → Option (Vec × ℕ)
  | 0, _, _, _ => none
  | fuel + 1, k, Lbar, Rbar =>
    let x1 := vadd Lbar (smul (rands k) (vsub Rbar Lbar))
    if fLt y (g x1 xargs) then some (x1, k + 1)
    else if vget x1 d < vget x0 d then shrink y x0 d fuel (k + 1) x1 Rbar
    else shrink y x0 d fuel (k + 1) Lbar x1

/-- Record of one coordinate step: the accepted point stored in the chain row
(line 74), the pre-move log-density stored in the likelihood trace (line 75),
the slice height of line 47 and the stepped coordinate (kept as ghost data for
the statements of the claims). -/
structure StepInfo where
  x1 : Vec
  y0 : F
  y : F
  d : ℕ
deriving Repr, Inhabited, DecidableEq

/-- Lines 44-73: one coordinate step — build `way`, step out, then shrink. -/
def coordStep (dim : ℕ) (w : ℚ) (m : ℤ) (fuel : ℕ) (x0 : Vec) (d k : ℕ) :
    Option (StepInfo × ℕ) :=
  let way := oneHot dim d
  let sok := stepOut g xargs flog rands x0 way w m k
  match shrink g xargs rands sok.1.y x0 d fuel sok.2 sok.1.L sok.1.R with
  | none => none
  | some (x1, k2) => some (⟨x1, sok.1.y0, sok.1.y, d⟩, k2)

/-- Lines 43-80: the `for d in range(dim)` loop, entered at chain index `i`,
recording one `StepInfo` per filled entry; the current point is rebound to the
accepted point (line 76) and the loop stops early once `i` reaches `N`
(lines 78-80). -/
def runFor (dim N : ℕ) (w : ℚ) (m : ℤ) (fuel : ℕ) :
    List ℕ → ℕ → Vec → ℕ → Option (List StepInfo × ℕ × Vec × ℕ)
  | [], i, x0, k => some ([], i, x0, k)
  | d :: ds, i, x0, k =>
    match coordStep g xargs flog rands dim w m fuel x0 d k with
    | none => none
    | some (e, k1) =>
      if N ≤ i + 1 then some ([e], i + 1, e.x1, k1)
      else
        match runFor dim N w m fuel ds (i + 1) e.x1 k1 with
        | none => none
        | some (es, i2, x2, k2) => some (e :: es, i2, x2, k2)

/-- Line 42: the `while i < N` loop.  The first argument is sweep fuel: every
sweep with `dim ≥ 1` fills at least one entry, so `N` sweeps always suffice;
with `dim = 0` the source loops forever, which the embedding reports as
`none` when the fuel is exhausted. -/
def runWhile (dim N : ℕ) (w : ℚ) (m : ℤ) (fuel : ℕ) :
    ℕ → ℕ → Vec → ℕ → Option (List StepInfo)
  | 0, _, _, _ => none
  | sf + 1, i, x0, k =>
    if i < N then
      match runFor g xargs flog rands dim N w m fuel (List.range dim) i x0 k with
      | none => none
      | some (es, i1, x1, k1) =>
        match runWhile dim N w m fuel sf i1 x1 k1 with
        | none => none
        | some es1 => some (es ++ es1)
    else some []

/-- The sequence of coordinate steps performed by a whole run: chain index
starts at 1 (line 40) and the uniform cursor at 0. -/
def slicerSteps (dim N : ℕ) (w : ℚ) (m : ℤ) (fuel : ℕ) (x0 : Vec) :
    Option (List StepInfo) :=
  runWhile g xargs flog rands dim N w m fuel N 1 x0 0

/-- Lines 12-81: the whole sampler.  Returns `(xs, likelies)`: the chain with
`x0` in row 0 (line 32) followed by the accepted points (line 74), and the
likelihood trace with `g x0 xargs` at index 0 (line 37) followed by the
pre-move log-densities (line 75).  `none` models the numpy error raised by
`xs[0,:] = x0` when `N = 0` or the shape of `x0` does not match `dim`, or a
run that does not finish within the given fuel. -/
def slicer (dim N : ℕ) (w : ℚ) (m : ℤ) (fuel : ℕ) (x0 : Vec) :
    Option (List Vec × List F) :=
  if N = 0 then none
  else if x0.length ≠ dim then none
  else
    match slicerSteps g xargs flog rands dim N w m fuel x0 with
    | none => none
    | some es =>
      some (x0 :: es.map (fun e => e.x1), g x0 xargs :: es.map (fun e => e.y0))

/-- The slice heights drawn on line 47, one per recorded step (ghost
projection of the same run: entry `j` is the height used to accept the point
stored at chain index `j + 1`). -/
def sliceHeights (dim N : ℕ) (w : ℚ) (m : ℤ) (fuel : ℕ) (x0 : Vec) :
    Option (List F) :=
  (slicerSteps g xargs flog rands dim N w m fuel x0).map (fun es => es.map (fun e => e.y))

/-- Invariant relating a run of recorded steps to its pre-move point `xp`:
every entry stores the pre-move log-density as `y0`, a slice height of the
form `y0 + log u`, an accepted point whose log-density strictly beats that
height, a stepped coordinate below `dim`, a point of length `dim` agreeing
with the pre-move point away from the stepped coordinate; and the rest of the
run continues from the accepted point. -/
def GoodSteps (dim : ℕ) : Vec → List StepInfo → Prop
  | _, [] => True
  | xp, e :: es =>
    e.y0 = g xp xargs ∧
    (∃ u, e.y = fAdd (g xp xargs) (some (flog u))) ∧
    fLt e.y (g e.x1 xargs) = true ∧
    e.d < dim ∧
    e.x1.length = dim ∧
    (∀ j, j ≠ e.d → vget e.x1 j = vget xp j) ∧
    GoodSteps dim e.x1 es

end

/-- The point a run of steps ends at: the last accepted point, or the
starting point when no step was recorded. -/
def endPt (xp : Vec) (es : List StepInfo) : Vec := es.foldl (fun _ e => e.x1) xp


namespace Facts

/-- Out-of-range components read as zero. -/
lemma vget_out {v : Vec} {j : ℕ} (h : v.length ≤ j) : vget v j = 0 :=
  List.getD_eq_default _ _ h

lemma length_vsub (a b : Vec) : (vsub a b).length = min a.length b.length :=
  List.length_zipWith ..

lemma length_vadd (a b : Vec) : (vadd a b).length = min a.length b.length :=
  List.length_zipWith ..

lemma length_smul (c : ℚ) (v : Vec) : (smul c v).length = v.length :=
  List.length_map ..

lemma length_oneHot (dim d : ℕ) : (oneHot dim d).length = dim := by
  simp [oneHot]

lemma vget_smul (c : ℚ) : ∀ (v : Vec) (j : ℕ), vget (smul c v) j = c * vget v j
  | [], j => by simp [smul, vget]
  | x :: v, 0 => rfl
  | x :: v, j + 1 => vget_smul c v j

lemma vget_vsub : ∀ (a b : Vec), a.length = b.length →
    ∀ j, vget (vsub a b) j = vget a j - vget b j
  | [], [], _, j => by simp [vsub, vget]
  | [], b :: bs, h, j => by simp at h
  | a :: as, [], h, j => by simp at h
  | a :: as, b :: bs, h, 0 => rfl
  | a :: as, b :: bs, h, j + 1 => vget_vsub as bs (by simpa using h) j

lemma vget_vadd : ∀ (a b : Vec), a.length = b.length →
    ∀ j, vget (vadd a b) j = vget a j + vget b j
  | [], [], _, j => by simp [vadd, vget]
  | [], b :: bs, h, j => by simp at h
  | a :: as, [], h, j => by simp at h
  | a :: as, b :: bs, h, 0 => rfl
  | a :: as, b :: bs, h, j + 1 => vget_vadd as bs (by simpa using h) j

/-- Away from coordinate `d` the one-hot direction reads zero (also past the
end of the vector). -/
lemma vget_oneHot_ne {dim d j : ℕ} (h : j ≠ d) : vget (oneHot dim d) j = 0 := by
  rcases lt_or_ge j dim with hj | hj
  · unfold vget oneHot
    rw [List.getD_eq_getElem?_getD, List.getElem?_map, List.getElem?_range hj]
    simp [h]
  · exact vget_out (by rw [length_oneHot]; exact hj)

lemma vget_oneHot_self {dim d : ℕ} (h : d < dim) : vget (oneHot dim d) d = 1 := by
  unfold vget oneHot
  rw [List.getD_eq_getElem?_getD, List.getElem?_map, List.getElem?_range h]
  simp

section

variable {α : Type} (g : Vec → α → F) (xargs : α) (flog : ℚ → ℚ) (rands : ℕ → ℚ)

/-- Left expansion subtracts some number `a ≤ n` of copies of `w * way`. -/
lemma stepLeft_spec (y : F) (w : ℚ) (way : Vec) :
    ∀ (n : ℕ) (L : Vec), L.length = way.length →
      ∃ a : ℕ, a ≤ n ∧ (stepLeft g xargs y w way n L).length = way.length ∧
        ∀ j, vget (stepLeft g xargs y w way n L) j
          = vget L j - (a : ℚ) * (w * vget way j) := by
  intro n
  induction n with
  | zero =>
    intro L hL
    exact ⟨0, le_refl 0, hL, fun j => by simp [stepLeft]⟩
  | succ n ih =>
    intro L hL
    by_cases hc : fLt y (g L xargs) = true
    · have hL2 : (vsub L (smul w way)).length = way.length := by
        rw [length_vsub, length_smul, hL, min_self]
      obtain ⟨a, ha, hlen, hval⟩ := ih (vsub L (smul w way)) hL2
      have hres : stepLeft g xargs y w way (n + 1) L
          = stepLeft g xargs y w way n (vsub L (smul w way)) := by
        simp [stepLeft, hc]
      refine ⟨a + 1, by omega, by rw [hres]; exact hlen, ?_⟩
      intro j
      rw [hres, hval j, vget_vsub L (smul w way) (by rw [length_smul, hL]) j, vget_smul]
      push_cast
      ring
    · refine ⟨0, by omega, ?_, ?_⟩
      · simp [stepLeft, hc, hL]
      · intro j; simp [stepLeft, hc]

/-- Right expansion adds some number `b ≤ n` of copies of `w * way`. -/
lemma stepRight_spec (y : F) (w : ℚ) (way : Vec) :
    ∀ (n : ℕ) (R : Vec), R.length = way.length →
      ∃ b : ℕ, b ≤ n ∧ (stepRight g xargs y w way n R).length = way.length ∧
        ∀ j, vget (stepRight g xargs y w way n R) j
          = vget R j + (b : ℚ) * (w * vget way j) := by
  intro n
  induction n with
  | zero =>
    intro R hR
    exact ⟨0, le_refl 0, hR, fun j => by simp [stepRight]⟩
  | succ n ih =>
    intro R hR
    by_cases hc : fLt y (g R xargs) = true
    · have hR2 : (vadd R (smul w way)).length = way.length := by
        rw [length_vadd, length_smul, hR, min_self]
      obtain ⟨b, hb, hlen, hval⟩ := ih (vadd R (smul w way)) hR2
      have hres : stepRight g xargs y w way (n + 1) R
          = stepRight g xargs y w way n (vadd R (smul w way)) := by
        simp [stepRight, hc]
      refine ⟨b + 1, by omega, by rw [hres]; exact hlen, ?_⟩
      intro j
      rw [hres, hval j, vget_vadd R (smul w way) (by rw [length_smul, hR]) j, vget_smul]
      push_cast
      ring
    · refine ⟨0, by omega, ?_, ?_⟩
      · simp [stepRight, hc, hR]
      · intro j; simp [stepRight, hc]

lemma initBracket_fst_length {x0 way : Vec} (h : x0.length = way.length) (w U : ℚ) :
    (initBracket x0 way w U).1.length = way.length := by
  simp only [initBracket]
  rw [length_vsub, length_smul, length_smul, h, min_self]

lemma initBracket_snd_length {x0 way : Vec} (h : x0.length = way.length) (w U : ℚ) :
    (initBracket x0 way w U).2.length = way.length := by
  simp only [initBracket]
  rw [length_vadd, length_vsub, length_smul, length_smul, h]
  omega

lemma vget_initBracket_fst {x0 way : Vec} (h : x0.length = way.length) (w U : ℚ)
    (j : ℕ) :
    vget (initBracket x0 way w U).1 j = vget x0 j - U * (w * vget way j) := by
  simp only [initBracket]
  rw [vget_vsub x0 _ (by rw [length_smul, length_smul, h]) j, vget_smul, vget_smul]

lemma vget_initBracket_snd {x0 way : Vec} (h : x0.length = way.length) (w U : ℚ)
    (j : ℕ) :
    vget (initBracket x0 way w U).2 j
      = vget x0 j - U * (w * vget way j) + w * vget way j := by
  have h1 : (initBracket x0 way w U).2 = vadd (initBracket x0 way w U).1 (smul w way) := rfl
  rw [h1,
    vget_vadd _ (smul w way) (by rw [initBracket_fst_length h, length_smul]) j,
    vget_smul, vget_initBracket_fst h w U j]

lemma stepOut_L (x0 way : Vec) (w : ℚ) (m : ℤ) (k : ℕ) :
    (stepOut g xargs flog rands x0 way w m k).1.L
      = stepLeft g xargs (fAdd (g x0 xargs) (some (flog (rands k)))) w way
          (budgetJ m (rands (k + 2))).toNat (initBracket x0 way w (rands (k + 1))).1 :=
  rfl

lemma stepOut_R (x0 way : Vec) (w : ℚ) (m : ℤ) (k : ℕ) :
    (stepOut g xargs flog rands x0 way w m k).1.R
      = stepRight g xargs (fAdd (g x0 xargs) (some (flog (rands k)))) w way
          (budgetK m (rands (k + 2))).toNat (initBracket x0 way w (rands (k + 1))).2 :=
  rfl

lemma stepOut_y (x0 way : Vec) (w : ℚ) (m : ℤ) (k : ℕ) :
    (stepOut g xargs flog rands x0 way w m k).1.y
      = fAdd (g x0 xargs) (some (flog (rands k))) :=
  rfl

lemma stepOut_y0 (x0 way : Vec) (w : ℚ) (m : ℤ) (k : ℕ) :
    (stepOut g xargs flog rands x0 way w m k).1.y0 = g x0 xargs :=
  rfl

/-- Summary of the step-out phase along the one-hot direction of coordinate
`d`: some `a ≤ J` left expansions and `b ≤ K` right expansions happened, both
bracket ends keep length `dim` and agree with the current point away from
coordinate `d`, and along `d` the bracket has width `(1 + a + b) * w`. -/
lemma stepOut_spec (dim d : ℕ) (xp : Vec) (w : ℚ) (m : ℤ) (k : ℕ)
    (hx : xp.length = dim) :
    ∃ a b : ℕ,
      a ≤ (budgetJ m (rands (k + 2))).toNat ∧
      b ≤ (budgetK m (rands (k + 2))).toNat ∧
      (stepOut g xargs flog rands xp (oneHot dim d) w m k).1.L.length = dim ∧
      (stepOut g xargs flog rands xp (oneHot dim d) w m k).1.R.length = dim ∧
      (∀ j, j ≠ d →
        vget (stepOut g xargs flog rands xp (oneHot dim d) w m k).1.L j = vget xp j ∧
        vget (stepOut g xargs flog rands xp (oneHot dim d) w m k).1.R j = vget xp j) ∧
      (d < dim →
        vget (stepOut g xargs flog rands xp (oneHot dim d) w m k).1.R d -
          vget (stepOut g xargs flog rands xp (oneHot dim d) w m k).1.L d
          = ((1 + a + b : ℕ) : ℚ) * w) := by
  have hxw : xp.length = (oneHot dim d).length := by rw [length_oneHot, hx]
  have hL0l : (initBracket xp (oneHot dim d) w (rands (k + 1))).1.length
      = (oneHot dim d).length := initBracket_fst_length hxw w (rands (k + 1))
  have hR0l : (initBracket xp (oneHot dim d) w (rands (k + 1))).2.length
      = (oneHot dim d).length := initBracket_snd_length hxw w (rands (k + 1))
  obtain ⟨a, ha, haL, haV⟩ :=
    stepLeft_spec g xargs (fAdd (g xp xargs) (some (flog (rands k)))) w (oneHot dim d)
      (budgetJ m (rands (k + 2))).toNat _ hL0l
  obtain ⟨b, hb, hbL, hbV⟩ :=
    stepRight_spec g xargs (fAdd (g xp xargs) (some (flog (rands k)))) w (oneHot dim d)
      (budgetK m (rands (k + 2))).toNat _ hR0l
  refine ⟨a, b, ha, hb, ?_, ?_, ?_, ?_⟩
  · rw [stepOut_L, haL, length_oneHot]
  · rw [stepOut_R, hbL, length_oneHot]
  · intro j hj
    constructor
    · rw [stepOut_L, haV j, vget_initBracket_fst hxw, vget_oneHot_ne hj]
      ring
    · rw [stepOut_R, hbV j, vget_initBracket_snd hxw, vget_oneHot_ne hj]
      ring
  · intro hd
    rw [stepOut_L, stepOut_R, haV d, hbV d, vget_initBracket_fst hxw,
      vget_initBracket_snd hxw, vget_oneHot_self hd]
    push_cast
    ring

/-- Whatever point the shrinkage loop accepts strictly beats the slice
height, keeps the common length of the working bracket, and agrees with the
current point away from coordinate `d` whenever both working ends do. -/
lemma shrink_spec (y : F) (xp : Vec) (d : ℕ) :
    ∀ (fuel k : ℕ) (Lbar Rbar x1 : Vec) (k2 : ℕ),
      Lbar.length = Rbar.length →
      (∀ j, j ≠ d → vget Lbar j = vget xp j) →
      (∀ j, j ≠ d → vget Rbar j = vget xp j) →
      shrink g xargs rands y xp d fuel k Lbar Rbar = some (x1, k2) →
      fLt y (g x1 xargs) = true ∧ x1.length = Lbar.length ∧
        ∀ j, j ≠ d → vget x1 j = vget xp j := by
  intro fuel
  induction fuel with
  | zero =>
    intro k Lbar Rbar x1 k2 _ _ _ h
    simp [shrink] at h
  | succ fuel ih =>
    intro k Lbar Rbar x1 k2 hLR hL hR h
    have hclen : (vadd Lbar (smul (rands k) (vsub Rbar Lbar))).length
        = Lbar.length := by
      rw [length_vadd, length_smul, length_vsub, ← hLR]
      omega
    have hcoff : ∀ j, j ≠ d →
        vget (vadd Lbar (smul (rands k) (vsub Rbar Lbar))) j = vget xp j := by
      intro j hj
      rw [vget_vadd Lbar _ (by rw [length_smul, length_vsub, ← hLR, min_self]),
        vget_smul, vget_vsub Rbar Lbar hLR.symm, hL j hj, hR j hj]
      ring
    simp only [shrink] at h
    by_cases hacc : fLt y (g (vadd Lbar (smul (rands k) (vsub Rbar Lbar))) xargs) = true
    · rw [if_pos hacc] at h
      simp only [Option.some.injEq, Prod.mk.injEq] at h
      obtain ⟨rfl, rfl⟩ := h
      exact ⟨hacc, hclen, hcoff⟩
    · rw [if_neg hacc] at h
      by_cases hlt : vget (vadd Lbar (smul (rands k) (vsub Rbar Lbar))) d < vget xp d
      · rw [if_pos hlt] at h
        obtain ⟨h1, h2, h3⟩ := ih (k + 1) _ Rbar x1 k2 (by rw [hclen, hLR]) hcoff hR h
        exact ⟨h1, by rw [h2, hclen], h3⟩
      · rw [if_neg hlt] at h
        obtain ⟨h1, h2, h3⟩ := ih (k + 1) Lbar _ x1 k2 hclen.symm hL hcoff h
        exact ⟨h1, h2, h3⟩

/-- Everything later invariants need about one successful coordinate step. -/
lemma coordStep_spec (dim : ℕ) (w : ℚ) (m : ℤ) (fuel : ℕ) (xp : Vec) (d k : ℕ)
    (e : StepInfo) (k2 : ℕ) (hx : xp.length = dim)
    (h : coordStep g xargs flog rands dim w m fuel xp d k = some (e, k2)) :
    e.y0 = g xp xargs ∧
    (∃ u, e.y = fAdd (g xp xargs) (some (flog u))) ∧
    fLt e.y (g e.x1 xargs) = true ∧
    e.d = d ∧
    e.x1.length = dim ∧
    (∀ j, j ≠ d → vget e.x1 j = vget xp j) := by
  obtain ⟨a, b, ha, hb, hLl, hRl, hoff, hwid⟩ :=
    stepOut_spec g xargs flog rands dim d xp w m k hx
  simp only [coordStep] at h
  cases hs : shrink g xargs rands
      (stepOut g xargs flog rands xp (oneHot dim d) w m k).1.y xp d fuel
      (stepOut g xargs flog rands xp (oneHot dim d) w m k).2
      (stepOut g xargs flog rands xp (oneHot dim d) w m k).1.L
      (stepOut g xargs flog rands xp (oneHot dim d) w m k).1.R with
  | none => rw [hs] at h; simp at h
  | some p =>
    obtain ⟨x1, k3⟩ := p
    rw [hs] at h
    simp only [Option.some.injEq, Prod.mk.injEq] at h
    obtain ⟨he, hk⟩ := h
    obtain ⟨h1, h2, h3⟩ := shrink_spec g xargs rands _ xp d fuel _ _ _ x1 k3
      (by rw [hLl, hRl]) (fun j hj => (hoff j hj).1) (fun j hj => (hoff j hj).2) hs
    subst he
    exact ⟨stepOut_y0 g xargs flog rands xp (oneHot dim d) w m k,
      ⟨rands k, stepOut_y g xargs flog rands xp (oneHot dim d) w m k⟩,
      h1, rfl, h2.trans hLl, h3⟩

lemma endPt_nil (xp : Vec) : endPt xp [] = xp := rfl

lemma endPt_cons (xp : Vec) (e : StepInfo) (es : List StepInfo) :
    endPt xp (e :: es) = endPt e.x1 es := rfl

lemma goodSteps_append (dim : ℕ) :
    ∀ (es1 : List StepInfo) (xp : Vec) (es2 : List StepInfo),
      GoodSteps g xargs flog dim xp es1 →
      GoodSteps g xargs flog dim (endPt xp es1) es2 →
      GoodSteps g xargs flog dim xp (es1 ++ es2)
  | [], _, _, _, h2 => h2
  | e :: es1, xp, es2, h1, h2 => by
    obtain ⟨a1, a2, a3, a4, a5, a6, hrest⟩ := h1
    exact ⟨a1, a2, a3, a4, a5, a6, goodSteps_append dim es1 e.x1 es2 hrest h2⟩

lemma goodSteps_x1_length (dim : ℕ) :
    ∀ (es : List StepInfo) (xp : Vec), GoodSteps g xargs flog dim xp es →
      ∀ e ∈ es, e.x1.length = dim
  | [], _, _, e, he => absurd he (List.not_mem_nil e)
  | e1 :: es, xp, h, e, he => by
    obtain ⟨_, _, _, _, h5, _, hrest⟩ := h
    rcases List.mem_cons.mp he with rfl | he2
    · exact h5
    · exact goodSteps_x1_length dim es e1.x1 hrest e he2

/-- Indexed reading of the invariant: position `j` of a good run relates the
recorded step to the chain entries `j` (its pre-move point) and `j + 1` (its
accepted point). -/
lemma goodSteps_get (dim : ℕ) :
    ∀ (es : List StepInfo) (xp : Vec), GoodSteps g xargs flog dim xp es →
      ∀ j, j < es.length →
        ((es.getD j default).y0
            = g ((xp :: es.map (fun e => e.x1)).getD j []) xargs) ∧
        (∃ u, (es.getD j default).y
            = fAdd (g ((xp :: es.map (fun e => e.x1)).getD j []) xargs)
                (some (flog u))) ∧
        (fLt (es.getD j default).y
            (g ((es.map (fun e => e.x1)).getD j []) xargs) = true) ∧
        ((es.getD j default).d < dim) ∧
        (((es.map (fun e => e.x1)).getD j []).length = dim) ∧
        (∀ i2, i2 ≠ (es.getD j default).d →
          vget ((es.map (fun e => e.x1)).getD j []) i2
            = vget ((xp :: es.map (fun e => e.x1)).getD j []) i2)
  | [], _, _, j, h => absurd h (by simp)
  | e :: es, xp, hg, 0, _ => by
    obtain ⟨h1, h2, h3, h4, h5, h6, _⟩ := hg
    exact ⟨h1, h2, h3, h4, h5, h6⟩
  | e :: es, xp, hg, j + 1, h => by
    obtain ⟨_, _, _, _, _, _, hrest⟩ := hg
    exact goodSteps_get dim es e.x1 hrest j (Nat.lt_of_succ_lt_succ h)

lemma getD_map_of_lt {γ : Type} (f : StepInfo → γ) (dg : γ) :
    ∀ (es : List StepInfo) (j : ℕ), j < es.length →
      (es.map f).getD j dg = f (es.getD j default)
  | [], j, h => absurd h (by simp)
  | e :: es, 0, _ => rfl
  | e :: es, j + 1, h => getD_map_of_lt f dg es j (Nat.lt_of_succ_lt_succ h)

/-- Invariant of the inner for loop: a successful pass from chain index
`i < N` yields a good run of steps ending at the returned point, fills
strictly increasing indices, and never passes `N`. -/
lemma runFor_spec (dim N : ℕ) (w : ℚ) (m : ℤ) (fuel : ℕ) :
    ∀ (ds : List ℕ) (i : ℕ) (xp : Vec) (k : ℕ) (es : List StepInfo) (i2 : ℕ)
      (x2 : Vec) (k2 : ℕ),
      xp.length = dim → (∀ d2 ∈ ds, d2 < dim) → i < N →
      runFor g xargs flog rands dim N w m fuel ds i xp k = some (es, i2, x2, k2) →
      GoodSteps g xargs flog dim xp es ∧ x2 = endPt xp es ∧ x2.length = dim ∧
        es.length + i = i2 ∧ i2 ≤ N := by
  intro ds
  induction ds with
  | nil =>
    intro i xp k es i2 x2 k2 hx _ hi h
    simp only [runFor, Option.some.injEq, Prod.mk.injEq] at h
    obtain ⟨rfl, rfl, rfl, rfl⟩ := h
    exact ⟨trivial, rfl, hx, by simp, by omega⟩
  | cons d ds ih =>
    intro i xp k es i2 x2 k2 hx hds hi h
    simp only [runFor] at h
    cases hc : coordStep g xargs flog rands dim w m fuel xp d k with
    | none => rw [hc] at h; simp at h
    | some p =>
      obtain ⟨e, k1⟩ := p
      rw [hc] at h
      obtain ⟨h1, h2, h3, hd4, h5, h6⟩ :=
        coordStep_spec g xargs flog rands dim w m fuel xp d k e k1 hx hc
      have hddim : e.d < dim := by
        rw [hd4]; exact hds d (List.mem_cons_self d ds)
      have hframe : ∀ j, j ≠ e.d → vget e.x1 j = vget xp j := by
        rw [hd4]; exact h6
      by_cases hN : N ≤ i + 1
      · simp only [if_pos hN, Option.some.injEq, Prod.mk.injEq] at h
        obtain ⟨rfl, rfl, rfl, rfl⟩ := h
        exact ⟨⟨h1, h2, h3, hddim, h5, hframe, trivial⟩, rfl, h5,
          by simp only [List.length_cons, List.length_nil]; omega, by omega⟩
      · simp only [if_neg hN] at h
        cases hr : runFor g xargs flog rands dim N w m fuel ds (i + 1) e.x1 k1 with
        | none => simp [hr] at h
        | some q =>
          obtain ⟨es2, i3, x3, k3⟩ := q
          simp only [hr, Option.some.injEq, Prod.mk.injEq] at h
          obtain ⟨rfl, rfl, rfl, rfl⟩ := h
          obtain ⟨hg2, hend2, hlen2, hcount2, hle2⟩ :=
            ih (i + 1) e.x1 k1 es2 i3 x3 k3 h5
              (fun d2 hd2 => hds d2 (List.mem_cons_of_mem d hd2)) (by omega) hr
          exact ⟨⟨h1, h2, h3, hddim, h5, hframe, hg2⟩,
            by rw [endPt_cons]; exact hend2, hlen2, by simp; omega, hle2⟩

/-- Invariant of the outer while loop: a successful run from index `i ≤ N`
is a good run of exactly `N - i` recorded steps. -/
lemma runWhile_spec (dim N : ℕ) (w : ℚ) (m : ℤ) (fuel : ℕ) :
    ∀ (sf i : ℕ) (xp : Vec) (k : ℕ) (es : List StepInfo),
      xp.length = dim → i ≤ N →
      runWhile g xargs flog rands dim N w m fuel sf i xp k = some es →
      GoodSteps g xargs flog dim xp es ∧ es.length + i = N := by
  intro sf
  induction sf with
  | zero =>
    intro i xp k es _ _ h
    simp [runWhile] at h
  | succ sf ih =>
    intro i xp k es hx hi h
    simp only [runWhile] at h
    by_cases hiN : i < N
    · rw [if_pos hiN] at h
      cases hf : runFor g xargs flog rands dim N w m fuel (List.range dim) i xp k with
      | none => rw [hf] at h; simp at h
      | some q =>
        obtain ⟨es1, i1, x1, k1⟩ := q
        rw [hf] at h
        obtain ⟨hg1, hx1eq, hx1len, hlen1, hle1⟩ :=
          runFor_spec g xargs flog rands dim N w m fuel (List.range dim) i xp k
            es1 i1 x1 k1 hx (fun d2 hd2 => List.mem_range.mp hd2) hiN hf
        cases hw2 : runWhile g xargs flog rands dim N w m fuel sf i1 x1 k1 with
        | none => simp [hw2] at h
        | some es2 =>
          simp only [hw2, Option.some.injEq] at h
          subst h
          obtain ⟨hg2, hlen2⟩ := ih i1 x1 k1 es2 hx1len hle1 hw2
          rw [hx1eq] at hg2
          exact ⟨goodSteps_append g xargs flog dim es1 xp es2 hg1 hg2,
            by rw [List.length_append]; omega⟩
    · rw [if_neg hiN] at h
      simp only [Option.some.injEq] at h
      subst h
      exact ⟨trivial, by simp only [List.length_nil]; omega⟩

/-- Unpacking a successful whole run: the parameters passed the entry checks,
and the chain and likelihood trace are the projections of a good run of
`N - 1` recorded steps. -/
lemma slicer_some_elim (dim N : ℕ) (w : ℚ) (m : ℤ) (fuel : ℕ) (x0 : Vec)
    (ch : List Vec) (lk : List F)
    (h : slicer g xargs flog rands dim N w m fuel x0 = some (ch, lk)) :
    N ≠ 0 ∧ x0.length = dim ∧
      ∃ es, slicerSteps g xargs flog rands dim N w m fuel x0 = some es ∧
        GoodSteps g xargs flog dim x0 es ∧ es.length + 1 = N ∧
        ch = x0 :: es.map (fun e => e.x1) ∧
        lk = g x0 xargs :: es.map (fun e => e.y0) := by
  simp only [slicer] at h
  by_cases hN : N = 0
  · rw [if_pos hN] at h; simp at h
  · rw [if_neg hN] at h
    by_cases hlen : x0.length ≠ dim
    · rw [if_pos hlen] at h; simp at h
    · rw [if_neg hlen] at h
      push_neg at hlen
      cases hst : slicerSteps g xargs flog rands dim N w m fuel x0 with
      | none => rw [hst] at h; simp at h
      | some es =>
        rw [hst] at h
        simp only [Option.some.injEq, Prod.mk.injEq] at h
        obtain ⟨hch, hlk⟩ := h
        obtain ⟨hg, hcount⟩ :=
          runWhile_spec g xargs flog rands dim N w m fuel N 1 x0 0 es hlen
            (by omega) hst
        exact ⟨hN, hlen, es, rfl, hg, hcount, hch.symm, hlk.symm⟩

end

end Facts

open Facts

section

variable {α : Type} (g : Vec → α → F) (xargs : α) (flog : ℚ → ℚ) (rands : ℕ → ℚ)

/-- Claim C3: the shrinkage loop has no iteration cap, and when the density
evaluator returns NaN at every candidate the acceptance comparison
`y < g(x1)` is always false, so the loop never exits: for every fuel bound
the embedded loop reports that it has not exited. -/
theorem claim_C3_nan_never_exits :
    ∀ (fuel k : ℕ) (y : F) (xp : Vec) (d : ℕ) (Lbar Rbar : Vec),
      shrink (fun _ _ => (none : F)) xargs rands y xp d fuel k Lbar Rbar = none := by
  intro fuel
  induction fuel with
  | zero => intro k y xp d Lbar Rbar; rfl
  | succ fuel ih =>
    intro k y xp d Lbar Rbar
    simp only [shrink]
    rw [if_neg (by cases y <;> simp [fLt])]
    by_cases hlt : vget (vadd Lbar (smul (rands k) (vsub Rbar Lbar))) d < vget xp d
    · rw [if_pos hlt]
      exact ih (k + 1) y xp d _ Rbar
    · rw [if_neg hlt]
      exact ih (k + 1) y xp d Lbar _

/-- Claim C8: for every m ≥ 1 and every V drawn from [0,1), the expansion
budgets J = floor(m·V) and K = (m − 1) − J are both non-negative integers
and sum to m − 1. -/
theorem claim_C8_budget_split (m : ℤ) (V : ℚ) (hm : 1 ≤ m) (h0 : 0 ≤ V)
    (h1 : V < 1) :
    0 ≤ budgetJ m V ∧ 0 ≤ budgetK m V ∧ budgetJ m V + budgetK m V = m - 1 := by
  have hm1 : (1 : ℚ) ≤ (m : ℚ) := by exact_mod_cast hm
  have hm0 : (0 : ℚ) < (m : ℚ) := lt_of_lt_of_le zero_lt_one hm1
  have hJ0 : 0 ≤ budgetJ m V := by
    unfold budgetJ
    exact Int.floor_nonneg.mpr (mul_nonneg hm0.le h0)
  have hJm : budgetJ m V < m := by
    unfold budgetJ
    rw [Int.floor_lt]
    calc (m : ℚ) * V < (m : ℚ) * 1 := mul_lt_mul_of_pos_left h1 hm0
    _ = (m : ℚ) := mul_one _
  exact ⟨hJ0, by unfold budgetK; omega, by unfold budgetK; ring⟩

/-- Witness for C8 at m = 2, V = 1/2. -/
theorem claim_C8_witness :
    (1 : ℤ) ≤ 2 ∧ (0 : ℚ) ≤ 1 / 2 ∧ (1 / 2 : ℚ) < 1 ∧
      (0 ≤ budgetJ 2 (1 / 2) ∧ 0 ≤ budgetK 2 (1 / 2) ∧
        budgetJ 2 (1 / 2) + budgetK 2 (1 / 2) = 2 - 1) :=
  ⟨by norm_num, by norm_num, by norm_num,
    claim_C8_budget_split 2 (1 / 2) (by norm_num) (by norm_num) (by norm_num)⟩

/-- Claim C9: with w > 0 and U2 drawn from [0,1), the initial bracket
L = x0 − w·way·U2, R = L + w·way satisfies L[d] ≤ x0[d] < R[d] along the
step coordinate d, and L and R agree with x0 in every other component. -/
theorem claim_C9_initial_bracket (dim d : ℕ) (xp : Vec) (w U : ℚ)
    (hx : xp.length = dim) (hd : d < dim) (hw : 0 < w) (hU0 : 0 ≤ U)
    (hU1 : U < 1) :
    vget (initBracket xp (oneHot dim d) w U).1 d ≤ vget xp d ∧
    vget xp d < vget (initBracket xp (oneHot dim d) w U).2 d ∧
    ∀ j, j ≠ d →
      vget (initBracket xp (oneHot dim d) w U).1 j = vget xp j ∧
      vget (initBracket xp (oneHot dim d) w U).2 j = vget xp j := by
  have hxw : xp.length = (oneHot dim d).length := by rw [length_oneHot, hx]
  refine ⟨?_, ?_, ?_⟩
  · rw [vget_initBracket_fst hxw, vget_oneHot_self hd]
    nlinarith
  · rw [vget_initBracket_snd hxw, vget_oneHot_self hd]
    nlinarith
  · intro j hj
    constructor
    · rw [vget_initBracket_fst hxw, vget_oneHot_ne hj]; ring
    · rw [vget_initBracket_snd hxw, vget_oneHot_ne hj]; ring

/-- Witness for C9 at dim = 1, d = 0, x0 = [3], w = 1, U = 1/2. -/
theorem claim_C9_witness :
    ([(3 : ℚ)].length = 1 ∧ 0 < 1 ∧ (0 : ℚ) < 1 ∧ (0 : ℚ) ≤ 1 / 2 ∧
      (1 / 2 : ℚ) < 1) ∧
    (vget (initBracket [(3 : ℚ)] (oneHot 1 0) 1 (1 / 2)).1 0 ≤ vget [(3 : ℚ)] 0 ∧
     vget [(3 : ℚ)] 0 < vget (initBracket [(3 : ℚ)] (oneHot 1 0) 1 (1 / 2)).2 0 ∧
     ∀ j, j ≠ 0 →
       vget (initBracket [(3 : ℚ)] (oneHot 1 0) 1 (1 / 2)).1 j = vget [(3 : ℚ)] j ∧
       vget (initBracket [(3 : ℚ)] (oneHot 1 0) 1 (1 / 2)).2 j = vget [(3 : ℚ)] j) :=
  ⟨⟨rfl, Nat.zero_lt_one, by norm_num, by norm_num, by norm_num⟩,
    claim_C9_initial_bracket 1 0 [(3 : ℚ)] 1 (1 / 2) rfl Nat.zero_lt_one
      (by norm_num) (by norm_num) (by norm_num)⟩

/-- Claim C7: after step-out the bracket width along the step coordinate is
(1 + left expansions + right expansions) × w, hence at most
(J + K + 1) × w, and with m = 0 no expansion occurs so the width stays w. -/
theorem claim_C7_stepout_width (dim d k : ℕ) (xp : Vec) (w : ℚ) (m : ℤ)
    (hx : xp.length = dim) (hd : d < dim) (hw : 0 < w) :
    ∃ a b : ℕ,
      a ≤ (budgetJ m (rands (k + 2))).toNat ∧
      b ≤ (budgetK m (rands (k + 2))).toNat ∧
      vget (stepOut g xargs flog rands xp (oneHot dim d) w m k).1.R d
          - vget (stepOut g xargs flog rands xp (oneHot dim d) w m k).1.L d
        = ((1 + a + b : ℕ) : ℚ) * w ∧
      vget (stepOut g xargs flog rands xp (oneHot dim d) w m k).1.R d
          - vget (stepOut g xargs flog rands xp (oneHot dim d) w m k).1.L d
        ≤ (((budgetJ m (rands (k + 2))).toNat
            + (budgetK m (rands (k + 2))).toNat + 1 : ℕ) : ℚ) * w ∧
      (m = 0 →
        vget (stepOut g xargs flog rands xp (oneHot dim d) w m k).1.R d
            - vget (stepOut g xargs flog rands xp (oneHot dim d) w m k).1.L d
          = w) := by
  obtain ⟨a, b, ha, hb, -, -, -, hwid⟩ :=
    stepOut_spec g xargs flog rands dim d xp w m k hx
  have hwd := hwid hd
  refine ⟨a, b, ha, hb, hwd, ?_, ?_⟩
  · rw [hwd]
    have hc : ((1 + a + b : ℕ) : ℚ)
        ≤ (((budgetJ m (rands (k + 2))).toNat
            + (budgetK m (rands (k + 2))).toNat + 1 : ℕ) : ℚ) := by
      have : (1 + a + b : ℕ)
          ≤ ((budgetJ m (rands (k + 2))).toNat
            + (budgetK m (rands (k + 2))).toNat + 1 : ℕ) := by omega
      exact_mod_cast this
    exact mul_le_mul_of_nonneg_right hc hw.le
  · intro hm0
    subst hm0
    have hJ : budgetJ 0 (rands (k + 2)) = 0 := by
      simp [budgetJ]
    have hK : budgetK 0 (rands (k + 2)) = -1 := by
      simp [budgetK, hJ]
    rw [hJ] at ha
    rw [hK] at hb
    have ha0 : a = 0 := by omega
    have hb0 : b = 0 := by simpa using hb
    rw [hwd, ha0, hb0]
    norm_num

/-- Witness for C7 at a constant-zero density, dim = 1, d = 0, x0 = [0],
w = 1, m = 1, uniform draws all 0. -/
theorem claim_C7_witness :
    ([(0 : ℚ)].length = 1 ∧ 0 < 1 ∧ (0 : ℚ) < 1) ∧
    (∃ a b : ℕ,
      a ≤ (budgetJ 1 ((fun _ => (0 : ℚ)) (0 + 2))).toNat ∧
      b ≤ (budgetK 1 ((fun _ => (0 : ℚ)) (0 + 2))).toNat ∧
      vget (stepOut (fun _ _ => (some 0 : F)) () (fun _ => (-1 : ℚ))
            (fun _ => (0 : ℚ)) [0] (oneHot 1 0) 1 1 0).1.R 0
          - vget (stepOut (fun _ _ => (some 0 : F)) () (fun _ => (-1 : ℚ))
            (fun _ => (0 : ℚ)) [0] (oneHot 1 0) 1 1 0).1.L 0
        = ((1 + a + b : ℕ) : ℚ) * 1 ∧
      vget (stepOut (fun _ _ => (some 0 : F)) () (fun _ => (-1 : ℚ))
            (fun _ => (0 : ℚ)) [0] (oneHot 1 0) 1 1 0).1.R 0
          - vget (stepOut (fun _ _ => (some 0 : F)) () (fun _ => (-1 : ℚ))
            (fun _ => (0 : ℚ)) [0] (oneHot 1 0) 1 1 0).1.L 0
        ≤ (((budgetJ 1 ((fun _ => (0 : ℚ)) (0 + 2))).toNat
            + (budgetK 1 ((fun _ => (0 : ℚ)) (0 + 2))).toNat + 1 : ℕ) : ℚ) * 1 ∧
      ((1 : ℤ) = 0 →
        vget (stepOut (fun _ _ => (some 0 : F)) () (fun _ => (-1 : ℚ))
            (fun _ => (0 : ℚ)) [0] (oneHot 1 0) 1 1 0).1.R 0
            - vget (stepOut (fun _ _ => (some 0 : F)) () (fun _ => (-1 : ℚ))
            (fun _ => (0 : ℚ)) [0] (oneHot 1 0) 1 1 0).1.L 0
          = 1)) :=
  ⟨⟨rfl, Nat.zero_lt_one, by norm_num⟩,
    claim_C7_stepout_width (fun _ _ => (some 0 : F)) () (fun _ => (-1 : ℚ))
      (fun _ => (0 : ℚ)) 1 0 0 [0] 1 1 rfl Nat.zero_lt_one (by norm_num)⟩

end

/-- Claim C4 is refuted by the code: `slicer` performs no parameter
validation.  At w = 0 (with a constant density, dim = 1, N = 2, m = 1) the
run raises nothing, consumes uniform draws, and returns a full chain instead
of failing before sampling. -/
theorem claim_C4_counterexample :
    slicer (fun _ _ => (some 0 : F)) () (fun _ => (-1 : ℚ)) (fun _ => 0)
        1 2 0 1 1 [0]
      = some ([[0], [0]], [some 0, some 0]) ∧
    slicer (fun _ _ => (some 0 : F)) () (fun _ => (-1 : ℚ)) (fun _ => 0)
        1 2 0 1 1 [0] ≠ none := by
  constructor
  · norm_num [slicer, slicerSteps, runWhile, runFor, coordStep, stepOut, shrink,
      initBracket, budgetJ, budgetK, oneHot, vsub, vadd, smul, vget, fAdd, fLt,
      stepLeft, stepRight, List.range_succ]
  · norm_num [slicer, slicerSteps, runWhile, runFor, coordStep, stepOut, shrink,
      initBracket, budgetJ, budgetK, oneHot, vsub, vadd, smul, vget, fAdd, fLt,
      stepLeft, stepRight, List.range_succ]
    exact Option.some_ne_none _

/-- Claim C4 amended: the code validates no parameter — w ≤ 0 (here w = −1)
and m < 0 (here m = −1) are accepted and the run returns a full chain; the
only aborts before sampling are the numpy indexing error at N = 0 (and a
shape mismatch of x0), not an InvalidParameter error. -/
theorem claim_C4_no_validation :
    (slicer (fun _ _ => (some 0 : F)) () (fun _ => (-1 : ℚ)) (fun _ => 0)
        1 2 (-1) (-1) 1 [0]
      = some ([[0], [0]], [some 0, some 0])) ∧
    (∀ (w2 : ℚ) (m2 : ℤ) (fuel2 : ℕ) (xp : Vec),
      slicer (fun _ _ => (some 0 : F)) () (fun _ => (-1 : ℚ)) (fun _ => 0)
        1 0 w2 m2 fuel2 xp = none) :=
  ⟨by norm_num [slicer, slicerSteps, runWhile, runFor, coordStep, stepOut, shrink,
      initBracket, budgetJ, budgetK, oneHot, vsub, vadd, smul, vget, fAdd, fLt,
      stepLeft, stepRight, List.range_succ],
    fun _ _ _ _ => rfl⟩

section

variable {α : Type} (g : Vec → α → F) (xargs : α) (flog : ℚ → ℚ) (rands : ℕ → ℚ)

/-- Claim C1: for every index i > 0, the accepted chain entry satisfies the
slice condition — the log-density of chain[i] strictly exceeds the slice
height y_i drawn for the step that produced chain[i], and that height is
logDensity(pre-move point) + log(U1) for the pre-move point chain[i-1]. -/
theorem claim_C1_slice_condition (dim N : ℕ) (w : ℚ) (m : ℤ) (fuel : ℕ)
    (x0 : Vec) (ch : List Vec) (lk hs : List F) (i : ℕ)
    (hrun : slicer g xargs flog rands dim N w m fuel x0 = some (ch, lk))
    (hhs : sliceHeights g xargs flog rands dim N w m fuel x0 = some hs)
    (h1 : 1 ≤ i) (h2 : i < N) :
    fLt (hs.getD (i - 1) none) (g (ch.getD i []) xargs) = true ∧
    ∃ u, hs.getD (i - 1) none
        = fAdd (g (ch.getD (i - 1) []) xargs) (some (flog u)) := by
  obtain ⟨hN, hx, es, hst, hg, hcount, hch, hlk⟩ :=
    slicer_some_elim g xargs flog rands dim N w m fuel x0 ch lk hrun
  subst hch
  have hhs2 : hs = es.map (fun e => e.y) := by
    unfold sliceHeights at hhs
    rw [hst] at hhs
    simpa using hhs.symm
  subst hhs2
  obtain ⟨j, rfl⟩ : ∃ j, i = j + 1 := ⟨i - 1, by omega⟩
  have hj : j < es.length := by omega
  obtain ⟨hy0, hyu, hflt, -, -, -⟩ :=
    goodSteps_get g xargs flog dim es x0 hg j hj
  constructor
  · rw [show j + 1 - 1 = j from rfl, getD_map_of_lt (fun e => e.y) none es j hj,
      List.getD_cons_succ]
    exact hflt
  · rw [show j + 1 - 1 = j from rfl, getD_map_of_lt (fun e => e.y) none es j hj]
    exact hyu

/-- Witness for C1 at a constant-zero density, dim = 1, N = 2, w = 1, m = 1,
uniform draws all 0, log modelled as the constant −1. -/
theorem claim_C1_witness :
    (slicer (fun _ _ => (some 0 : F)) () (fun _ => (-1 : ℚ)) (fun _ => 0)
        1 2 1 1 1 [0] = some ([[0], [0]], [some 0, some 0])) ∧
    (sliceHeights (fun _ _ => (some 0 : F)) () (fun _ => (-1 : ℚ)) (fun _ => 0)
        1 2 1 1 1 [0] = some [some (-1)]) ∧
    1 ≤ 1 ∧ 1 < 2 ∧
    (fLt ([some (-1 : ℚ)].getD (1 - 1) none)
        ((fun _ _ => (some 0 : F)) ([[(0 : ℚ)], [0]].getD 1 []) ()) = true ∧
     ∃ u : ℚ, [some (-1 : ℚ)].getD (1 - 1) none
        = fAdd ((fun _ _ => (some 0 : F)) ([[(0 : ℚ)], [0]].getD (1 - 1) []) ())
            (some ((fun _ : ℚ => (-1 : ℚ)) u))) :=
  ⟨by norm_num [slicer, slicerSteps, runWhile, runFor, coordStep, stepOut, shrink,
      initBracket, budgetJ, budgetK, oneHot, vsub, vadd, smul, vget, fAdd, fLt,
      stepLeft, stepRight, List.range_succ],
   by norm_num [sliceHeights, slicerSteps, runWhile, runFor, coordStep, stepOut,
      shrink, initBracket, budgetJ, budgetK, oneHot, vsub, vadd, smul, vget, fAdd,
      fLt, stepLeft, stepRight, List.range_succ],
   le_refl 1, Nat.one_lt_two,
   claim_C1_slice_condition (fun _ _ => (some 0 : F)) () (fun _ => (-1 : ℚ))
     (fun _ => 0) 1 2 1 1 1 [0] [[0], [0]] [some 0, some 0] [some (-1)] 1
     (by norm_num [slicer, slicerSteps, runWhile, runFor, coordStep, stepOut, shrink,
        initBracket, budgetJ, budgetK, oneHot, vsub, vadd, smul, vget, fAdd, fLt,
        stepLeft, stepRight, List.range_succ])
     (by norm_num [sliceHeights, slicerSteps, runWhile, runFor, coordStep, stepOut,
        shrink, initBracket, budgetJ, budgetK, oneHot, vsub, vadd, smul, vget, fAdd,
        fLt, stepLeft, stepRight, List.range_succ])
     (le_refl 1) Nat.one_lt_two⟩

/-- Claim C2: for every index i ≥ 1, likelihoods[i] is the log-density of
the pre-move point of the step that produced chain[i], namely chain[i-1]. -/
theorem claim_C2_premove_likelihood (dim N : ℕ) (w : ℚ) (m : ℤ) (fuel : ℕ)
    (x0 : Vec) (ch : List Vec) (lk : List F) (i : ℕ)
    (hrun : slicer g xargs flog rands dim N w m fuel x0 = some (ch, lk))
    (h1 : 1 ≤ i) (h2 : i < N) :
    lk.getD i none = g (ch.getD (i - 1) []) xargs := by
  obtain ⟨hN, hx, es, hst, hg, hcount, hch, hlk⟩ :=
    slicer_some_elim g xargs flog rands dim N w m fuel x0 ch lk hrun
  subst hch
  subst hlk
  obtain ⟨j, rfl⟩ : ∃ j, i = j + 1 := ⟨i - 1, by omega⟩
  have hj : j < es.length := by omega
  have hy0 := (goodSteps_get g xargs flog dim es x0 hg j hj).1
  rw [show j + 1 - 1 = j from rfl, List.getD_cons_succ,
    getD_map_of_lt (fun e => e.y0) none es j hj]
  exact hy0

/-- Witness for C2 at the same concrete run as C1. -/
theorem claim_C2_witness :
    (slicer (fun _ _ => (some 0 : F)) () (fun _ => (-1 : ℚ)) (fun _ => 0)
        1 2 1 1 1 [0] = some ([[0], [0]], [some 0, some 0])) ∧
    1 ≤ 1 ∧ 1 < 2 ∧
    [some (0 : ℚ), some 0].getD 1 none
      = (fun _ _ => (some 0 : F)) ([[(0 : ℚ)], [0]].getD (1 - 1) []) () :=
  ⟨by norm_num [slicer, slicerSteps, runWhile, runFor, coordStep, stepOut, shrink,
      initBracket, budgetJ, budgetK, oneHot, vsub, vadd, smul, vget, fAdd, fLt,
      stepLeft, stepRight, List.range_succ],
   le_refl 1, Nat.one_lt_two,
   claim_C2_premove_likelihood (fun _ _ => (some 0 : F)) () (fun _ => (-1 : ℚ))
     (fun _ => 0) 1 2 1 1 1 [0] [[0], [0]] [some 0, some 0] 1
     (by norm_num [slicer, slicerSteps, runWhile, runFor, coordStep, stepOut, shrink,
        initBracket, budgetJ, budgetK, oneHot, vsub, vadd, smul, vget, fAdd, fLt,
        stepLeft, stepRight, List.range_succ])
     (le_refl 1) Nat.one_lt_two⟩

/-- Claim C5: a returned run has exactly N chain entries, each of length dim,
and exactly N likelihood entries. -/
theorem claim_C5_shapes (dim N : ℕ) (w : ℚ) (m : ℤ) (fuel : ℕ)
    (x0 : Vec) (ch : List Vec) (lk : List F)
    (hrun : slicer g xargs flog rands dim N w m fuel x0 = some (ch, lk)) :
    ch.length = N ∧ lk.length = N ∧ ∀ v ∈ ch, v.length = dim := by
  obtain ⟨hN, hx, es, hst, hg, hcount, hch, hlk⟩ :=
    slicer_some_elim g xargs flog rands dim N w m fuel x0 ch lk hrun
  subst hch
  subst hlk
  refine ⟨?_, ?_, ?_⟩
  · simp only [List.length_cons, List.length_map]
    omega
  · simp only [List.length_cons, List.length_map]
    omega
  · intro v hv
    rcases List.mem_cons.mp hv with rfl | hv2
    · exact hx
    · obtain ⟨e, he, rfl⟩ := List.mem_map.mp hv2
      exact goodSteps_x1_length g xargs flog dim es x0 hg e he

/-- Witness for C5 at the same concrete run as C1. -/
theorem claim_C5_witness :
    (slicer (fun _ _ => (some 0 : F)) () (fun _ => (-1 : ℚ)) (fun _ => 0)
        1 2 1 1 1 [0] = some ([[0], [0]], [some 0, some 0])) ∧
    ([[(0 : ℚ)], [0]].length = 2 ∧ [some (0 : ℚ), some 0].length = 2 ∧
      ∀ v ∈ [[(0 : ℚ)], [0]], v.length = 1) :=
  ⟨by norm_num [slicer, slicerSteps, runWhile, runFor, coordStep, stepOut, shrink,
      initBracket, budgetJ, budgetK, oneHot, vsub, vadd, smul, vget, fAdd, fLt,
      stepLeft, stepRight, List.range_succ],
   claim_C5_shapes (fun _ _ => (some 0 : F)) () (fun _ => (-1 : ℚ))
     (fun _ => 0) 1 2 1 1 1 [0] [[0], [0]] [some 0, some 0]
     (by norm_num [slicer, slicerSteps, runWhile, runFor, coordStep, stepOut, shrink,
        initBracket, budgetJ, budgetK, oneHot, vsub, vadd, smul, vget, fAdd, fLt,
        stepLeft, stepRight, List.range_succ])⟩

/-- Claim C6: chain[0] is exactly the caller-supplied initial point and
likelihoods[0] is exactly its log-density. -/
theorem claim_C6_initial_entries (dim N : ℕ) (w : ℚ) (m : ℤ) (fuel : ℕ)
    (x0 : Vec) (ch : List Vec) (lk : List F)
    (hrun : slicer g xargs flog rands dim N w m fuel x0 = some (ch, lk)) :
    ch.getD 0 [] = x0 ∧ lk.getD 0 none = g x0 xargs := by
  obtain ⟨hN, hx, es, hst, hg, hcount, hch, hlk⟩ :=
    slicer_some_elim g xargs flog rands dim N w m fuel x0 ch lk hrun
  subst hch
  subst hlk
  exact ⟨rfl, rfl⟩

/-- Witness for C6 at the same concrete run as C1. -/
theorem claim_C6_witness :
    (slicer (fun _ _ => (some 0 : F)) () (fun _ => (-1 : ℚ)) (fun _ => 0)
        1 2 1 1 1 [0] = some ([[0], [0]], [some 0, some 0])) ∧
    ([[(0 : ℚ)], [0]].getD 0 [] = [0] ∧
      [some (0 : ℚ), some 0].getD 0 none
        = (fun _ _ => (some 0 : F)) [(0 : ℚ)] ()) :=
  ⟨by norm_num [slicer, slicerSteps, runWhile, runFor, coordStep, stepOut, shrink,
      initBracket, budgetJ, budgetK, oneHot, vsub, vadd, smul, vget, fAdd, fLt,
      stepLeft, stepRight, List.range_succ],
   claim_C6_initial_entries (fun _ _ => (some 0 : F)) () (fun _ => (-1 : ℚ))
     (fun _ => 0) 1 2 1 1 1 [0] [[0], [0]] [some 0, some 0]
     (by norm_num [slicer, slicerSteps, runWhile, runFor, coordStep, stepOut, shrink,
        initBracket, budgetJ, budgetK, oneHot, vsub, vadd, smul, vget, fAdd, fLt,
        stepLeft, stepRight, List.range_succ])⟩

/-- Claim C10: every coordinate step changes at most one component — each
accepted entry chain[i] agrees with its pre-move point chain[i-1] on every
component except the single coordinate stepped. -/
theorem claim_C10_single_coordinate (dim N : ℕ) (w : ℚ) (m : ℤ) (fuel : ℕ)
    (x0 : Vec) (ch : List Vec) (lk : List F) (i : ℕ)
    (hrun : slicer g xargs flog rands dim N w m fuel x0 = some (ch, lk))
    (h1 : 1 ≤ i) (h2 : i < N) :
    ∃ d, d < dim ∧ ∀ j, j < dim → j ≠ d →
      vget (ch.getD i []) j = vget (ch.getD (i - 1) []) j := by
  obtain ⟨hN, hx, es, hst, hg, hcount, hch, hlk⟩ :=
    slicer_some_elim g xargs flog rands dim N w m fuel x0 ch lk hrun
  subst hch
  obtain ⟨j, rfl⟩ : ∃ j, i = j + 1 := ⟨i - 1, by omega⟩
  have hj : j < es.length := by omega
  obtain ⟨-, -, -, hd, -, hoff⟩ := goodSteps_get g xargs flog dim es x0 hg j hj
  refine ⟨(es.getD j default).d, hd, ?_⟩
  intro j2 _ hne
  rw [show j + 1 - 1 = j from rfl, List.getD_cons_succ]
  exact hoff j2 hne

/-- Witness for C10 at the same concrete run as C1. -/
theorem claim_C10_witness :
    (slicer (fun _ _ => (some 0 : F)) () (fun _ => (-1 : ℚ)) (fun _ => 0)
        1 2 1 1 1 [0] = some ([[0], [0]], [some 0, some 0])) ∧
    1 ≤ 1 ∧ 1 < 2 ∧
    (∃ d, d < 1 ∧ ∀ j, j < 1 → j ≠ d →
      vget ([[(0 : ℚ)], [0]].getD 1 []) j
        = vget ([[(0 : ℚ)], [0]].getD (1 - 1) []) j) :=
  ⟨by norm_num [slicer, slicerSteps, runWhile, runFor, coordStep, stepOut, shrink,
      initBracket, budgetJ, budgetK, oneHot, vsub, vadd, smul, vget, fAdd, fLt,
      stepLeft, stepRight, List.range_succ],
   le_refl 1, Nat.one_lt_two,
   claim_C10_single_coordinate (fun _ _ => (some 0 : F)) () (fun _ => (-1 : ℚ))
     (fun _ => 0) 1 2 1 1 1 [0] [[0], [0]] [some 0, some 0] 1
     (by norm_num [slicer, slicerSteps, runWhile, runFor, coordStep, stepOut, shrink,
        initBracket, budgetJ, budgetK, oneHot, vsub, vadd, smul, vget, fAdd, fLt,
        stepLeft, stepRight, List.range_succ])
     (le_refl 1) Nat.one_lt_two⟩

end

end PySlicer
